import Mathlib

set_option maxRecDepth 8000

/-!
Shallow embedding of the core processing pipeline of
`video_translator_bot_fixed.py` (an English-video → Hebrew-subtitles bot),
and proofs about it.

External effects (the Telegram transport, the translation engine, the
transcoder, the filesystem and the working directory) are modelled
explicitly: nondeterministic outcomes of external calls are supplied by
oracle / environment arguments, the filesystem is a set of job-scoped
paths, and `time.sleep` calls are collected in a trace.  Python floats are
modelled as exact rationals, `str` as `String`, and Python's user-facing
Hebrew message strings as abstract enumerations.
-/

/-! ### Segments (whisper transcription output: dicts with start / end / text) -/

/-- A timed speech segment (`{'start': float, 'end': float, 'text': str}`).
The Python key `end` is spelled `endT` because `end` is a Lean keyword. -/
structure Segment where
  start : ℚ
  endT : ℚ
  text : String
deriving DecidableEq

/-! ### add_space_after_punctuation (lines 246-256)

`re.sub(f'\\{mark}(?!\\s)', f'{mark} ', text)` replaces every occurrence of
`mark` that is not followed by a whitespace character (end of string counts
as not-followed) by `mark` plus a space.  The pattern consumes a single
character, so the scan is char-by-char over the original string;
`subMark` mirrors that scan.  The whitespace class is parameterised
(`ws`): the concrete `pySpace` below covers the ASCII part of Python's
`\s`; all theorems are insensitive to the exact class as long as `' '`
is whitespace and the punctuation marks are not. -/

def pySpace (c : Char) : Bool :=
  c = ' ' || c = '\t' || c = '\n' || c = '\r' || c = '\x0b' || c = '\x0c'

/-- Python `str.strip()`: remove leading and trailing whitespace. -/
def pyStrip (s : String) : String :=
  ⟨((s.data.dropWhile pySpace).reverse.dropWhile pySpace).reverse⟩

/-- One `re.sub` pass for a single mark `m`. -/
def subMark (ws : Char → Bool) (m : Char) : List Char → List Char
  | [] => []
  | c :: cs =>
    if c = m then
      match cs with
      | [] => [c, ' ']
      | d :: _ => if ws d then c :: subMark ws m cs else c :: ' ' :: subMark ws m cs
    else c :: subMark ws m cs

/-- The `punctuation_marks` list of the source, in its loop order. -/
def punctuation_marks : List Char := [',', '.', '!', '?', ':', ';', ')', ']', '}']

/-- The `for mark in punctuation_marks` loop: one `re.sub` pass per mark. -/
def applyMarks (ws : Char → Bool) (ms : List Char) (s : List Char) : List Char :=
  ms.foldl (fun t mk => subMark ws mk t) s

/-- `add_space_after_punctuation` (lines 246-256), including the
`if not text: return text` guard. -/
def add_space_after_punctuation (text : String) : String :=
  if text = "" then text
  else ⟨applyMarks pySpace punctuation_marks text.data⟩

/-- Specification predicate: every occurrence of `m` in the list is
immediately followed by a whitespace character (a final `m` counts as not
followed by whitespace). -/
def marksSpaced (ws : Char → Bool) (m : Char) : List Char → Bool
  | [] => true
  | c :: t =>
    (if c = m then (match t.head? with | some d => ws d | none => false) else true) &&
      marksSpaced ws m t

/-! ### translate_text_safe (lines 227-244)

The translation engine is an oracle: attempt `i` either raises
(`TransAttempt.fail`, the `except` branch with its conditional
`time.sleep(1)`) or returns an object whose `.text` is some string
(`TransAttempt.result`); a falsy (empty) result text is not accepted and
the loop continues without sleeping.  The function returns the produced
text together with the trace of sleep durations. -/

inductive TransAttempt
  | fail
  | result (t : String)

/-- An attempt outcome is accepted by the loop iff it is a returned result
with truthy (non-empty) text (`if result and result.text`). -/
def transSuccess : TransAttempt → Bool
  | .fail => false
  | .result t => !(t == "")

/-- The `for attempt in range(max_retries)` loop; `rem` is the number of
attempts still allowed, so the current attempt index is `maxR - rem`.
Returns `some t` on success, `none` when all attempts are used up. -/
def translateGo (oracle : ℕ → TransAttempt) (maxR : ℕ) : ℕ → Option String × List ℕ
  | 0 => (none, [])
  | rem + 1 =>
    match oracle (maxR - (rem + 1)) with
    | .result t => if t = "" then translateGo oracle maxR rem else (some t, [])
    | .fail =>
      let r := translateGo oracle maxR rem
      if rem > 0 then (r.1, 1 :: r.2) else (r.1, r.2)

/-- `translate_text_safe(text, max_retries)`: guard for empty/whitespace-only
input, then the retry loop; on exhaustion the original `text` argument is
returned unchanged. -/
def translate_text_safe (oracle : ℕ → TransAttempt) (text : String) (maxRetries : ℕ) :
    String × List ℕ :=
  if pyStrip text = "" then (text, [])
  else
    match translateGo oracle maxRetries maxRetries with
    | (some t, sl) => (t, sl)
    | (none, sl) => (text, sl)

/-! ### process_segments_safe (lines 258-302)

Per loop iteration `i` the environment says whether the segment body
raises an exception escaping `translate_text_safe` (e.g. the
`Translator()` constructor — the `except` branch at lines 293-300 then
appends the segment with its original unmodified text), or which
translation-attempt oracle drives `translate_text_safe`.  Status-message
updates (lines 266-276) are wrapped in `try/except: pass` and have no
effect on the result, so they are not modelled. -/

inductive SegEnv
  | raise
  | translate (oracle : ℕ → TransAttempt)

/-- Text appended for a segment with non-empty stripped text. -/
def segOutText (e : SegEnv) (s : Segment) : String :=
  match e with
  | .raise => s.text
  | .translate oracle =>
    add_space_after_punctuation (translate_text_safe oracle (pyStrip s.text) 3).1

/-- The `for i, segment in enumerate(segments)` loop. -/
def processSegmentsGo (env : ℕ → SegEnv) : ℕ → List Segment → List Segment
  | _, [] => []
  | i, seg :: rest =>
    if pyStrip seg.text = "" then processSegmentsGo env (i + 1) rest
    else ⟨seg.start, seg.endT, segOutText (env i) seg⟩ :: processSegmentsGo env (i + 1) rest

/-- `process_segments_safe(segments, ...)`. -/
def process_segments_safe (env : ℕ → SegEnv) (segments : List Segment) : List Segment :=
  processSegmentsGo env 0 segments

/-! ### format_srt_time (lines 304-315)

Python floats are modelled as exact rationals; a non-numeric argument
(for which `float(seconds)` raises and the `except` branch returns the
zero timestamp) is the `malformed` constructor.  Python's `//` is floor
division and `%` is floor-mod (`a % b = a - b * (a // b)`); `int()` on the
non-negative values appearing here is the floor.  `f"{v:02d}"` /
`f"{v:03d}"` zero-pad to a MINIMUM width. -/

inductive SrtSeconds
  | num (q : ℚ)
  | malformed

/-- Python `a // b` on numbers. -/
def pyFloorDiv (a b : ℚ) : ℤ := ⌊a / b⌋

/-- Python `a % b` on numbers (`b > 0` here). -/
def pyMod (a b : ℚ) : ℚ := a - b * ⌊a / b⌋

/-- Decimal digits of a natural number, with fuel (`fuel > digits` always
holds for the uses below since `natDigitsAux (n+1) n` is called). -/
def natDigitsAux : ℕ → ℕ → List Char
  | 0, _ => []
  | fuel + 1, n =>
    if n < 10 then [Nat.digitChar n]
    else natDigitsAux fuel (n / 10) ++ [Nat.digitChar (n % 10)]

/-- Decimal rendering of a natural number (Python `str` / `d` format). -/
def natDecimal (n : ℕ) : List Char := natDigitsAux (n + 1) n

/-- Zero-pad a digit list on the left to a minimum width. -/
def padDigits (w : ℕ) (l : List Char) : List Char :=
  List.replicate (w - l.length) '0' ++ l

/-- Python `f"{n:0{w}d}"` for an integer: minimum width `w`, the sign
counting toward the width. -/
def intPad (w : ℕ) (n : ℤ) : String :=
  if n < 0 then ⟨'-' :: padDigits (w - 1) (natDecimal n.natAbs)⟩
  else ⟨padDigits w (natDecimal n.natAbs)⟩

/-- `format_srt_time(seconds)` (lines 304-315). -/
def format_srt_time : SrtSeconds → String
  | .malformed => "00:00:00,000"
  | .num q =>
    let hours : ℤ := pyFloorDiv q 3600
    let minutes : ℤ := pyFloorDiv (pyMod q 3600) 60
    let secsQ : ℚ := pyMod q 60
    let millisecs : ℤ := ⌊pyMod secsQ 1 * 1000⌋
    let secs : ℤ := ⌊secsQ⌋
    intPad 2 hours ++ ":" ++ intPad 2 minutes ++ ":" ++ intPad 2 secs ++ "," ++ intPad 3 millisecs

/-- Spec-side rendering of a two-digit zero-padded field (`HH`, `MM`, `SS`),
written from the spec's words, independent of `intPad`. -/
def specTwoDigit (n : ℕ) : String := ⟨[Nat.digitChar (n / 10), Nat.digitChar (n % 10)]⟩

/-- Spec-side rendering of the three-digit millisecond field (`mmm`). -/
def specThreeDigit (n : ℕ) : String :=
  ⟨[Nat.digitChar (n / 100), Nat.digitChar (n / 10 % 10), Nat.digitChar (n % 10)]⟩

/-! ### create_srt_file_safe (lines 317-342)

The writes to the `.srt` file are modelled at line granularity: each
`f.write(f"...\n")` appends one line, the final `f.write(f"{text}\n\n")`
appends the text line and a blank separator line (segment text is a
single line).  `create_srt_file_safe` is the sequence of lines written;
`srtEntriesGo` is the same loop read at record granularity. -/

/-- One emitted subtitle record: index, formatted start/end, text. -/
structure SrtEntry where
  index : ℕ
  startT : String
  endT : String
  text : String
deriving DecidableEq

/-- The record-level reading of the `for segment in segments` loop, with the
running `subtitle_index` counter. -/
def srtEntriesGo : ℕ → List Segment → List SrtEntry
  | _, [] => []
  | idx, seg :: rest =>
    if seg.text = "" then srtEntriesGo idx rest
    else
      ⟨idx, format_srt_time (.num seg.start), format_srt_time (.num seg.endT), seg.text⟩ ::
        srtEntriesGo (idx + 1) rest

/-- The records emitted by `create_srt_file_safe`, counter starting at 1. -/
def srtEntries (segments : List Segment) : List SrtEntry := srtEntriesGo 1 segments

/-- The four lines one record occupies in the file. -/
def entryLines (e : SrtEntry) : List String :=
  [⟨natDecimal e.index⟩, e.startT ++ " --> " ++ e.endT, e.text, ""]

/-- The line-level writing loop of `create_srt_file_safe`. -/
def srtWriteGo : ℕ → List Segment → List String
  | _, [] => []
  | idx, seg :: rest =>
    if seg.text = "" then srtWriteGo idx rest
    else
      (⟨natDecimal idx⟩ : String) ::
        (format_srt_time (.num seg.start) ++ " --> " ++ format_srt_time (.num seg.endT)) ::
        seg.text :: "" :: srtWriteGo (idx + 1) rest

/-- `create_srt_file_safe(segments, user_id)`: the lines of the written file. -/
def create_srt_file_safe (segments : List Segment) : List String := srtWriteGo 1 segments

/-! ### download_file_safe (lines 152-199)

Each attempt's interaction with Telegram is one oracle outcome:
the declared size exceeding the 20 MB API ceiling, one of the recognised
`BadRequest` messages, an unrecognised `BadRequest`, a `TimedOut` /
`NetworkError` (the only branch that sleeps, `2 ** attempt`, when another
attempt remains), another `TelegramError`, an unexpected exception, or a
completed `download` call after which the file exists (or not) with some
size.  The distinct returned Hebrew message strings are modelled as an
enumeration.  The result carries the sleep trace and the number of
attempts actually started. -/

inductive DlAttempt
  | declaredTooBig
  | badTooBig
  | badNotFound
  | badInvalidId
  | badOther
  | netError
  | telegramError
  | otherError
  | downloaded (fileOnDisk : Bool) (size : ℕ)

inductive DlMsg
  | tooBig20MB
  | tooBigApi
  | notFound
  | invalidId
  | success
  | exhausted
deriving DecidableEq

/-- The `for attempt in range(max_retries)` loop; `rem` is the number of
attempts still allowed, the current attempt index is `maxR - rem`. -/
def dlGo (o : ℕ → DlAttempt) (maxR : ℕ) : ℕ → (Bool × DlMsg) × List ℕ × ℕ
  | 0 => ((false, .exhausted), [], 0)
  | rem + 1 =>
    let attempt := maxR - (rem + 1)
    match o attempt with
    | .declaredTooBig => ((false, .tooBig20MB), [], 1)
    | .badTooBig => ((false, .tooBigApi), [], 1)
    | .badNotFound => ((false, .notFound), [], 1)
    | .badInvalidId => ((false, .invalidId), [], 1)
    | .badOther =>
      let r := dlGo o maxR rem
      (r.1, r.2.1, r.2.2 + 1)
    | .netError =>
      let r := dlGo o maxR rem
      if rem > 0 then (r.1, 2 ^ attempt :: r.2.1, r.2.2 + 1) else (r.1, r.2.1, r.2.2 + 1)
    | .telegramError =>
      let r := dlGo o maxR rem
      (r.1, r.2.1, r.2.2 + 1)
    | .otherError =>
      let r := dlGo o maxR rem
      (r.1, r.2.1, r.2.2 + 1)
    | .downloaded fileOnDisk size =>
      if fileOnDisk && decide (100 < size) then ((true, .success), [], 1)
      else
        let r := dlGo o maxR rem
        (r.1, r.2.1, r.2.2 + 1)

/-- `download_file_safe(context, file_id, file_path, max_retries)`:
result flag and message, sleep trace, attempts started. -/
def download_file_safe (o : ℕ → DlAttempt) (maxRetries : ℕ) : (Bool × DlMsg) × List ℕ × ℕ :=
  dlGo o maxRetries maxRetries

/-! ### Filesystem model, embed_subtitles_safe (lines 344-406) and
process_video_complete (lines 408-517)

The job-scoped paths (all keyed by user id + timestamp in the source) are
an enumeration; the filesystem is the set of those paths currently on
disk.  The working directory is a string tracked through the `os.chdir`
calls. -/

inductive TPath
  | input
  | audio
  | srt
  | simpleVideo
  | simpleSrt
  | output
deriving DecidableEq

/-- The set of job paths existing on disk. -/
def FSState : Type := TPath → Bool

def fsInsert (fs : FSState) (p : TPath) : FSState :=
  fun q => if q = p then true else fs q

def fsErase (fs : FSState) (p : TPath) : FSState :=
  fun q => if q = p then false else fs q

/-- `cleanup_files(simple_video_path, simple_srt_path, output_path)`. -/
def cleanupScratch (fs : FSState) : FSState :=
  fsErase (fsErase (fsErase fs .simpleVideo) .simpleSrt) .output

/-- Outcome of the `subprocess.run` transcoder invocation:
`timeout` (with or without a partial output file left behind), or a
completed run with its exit status, whether the output file was created,
and whether it exceeds the 1000-byte plausibility threshold. -/
inductive RunOutcome
  | timeout (partialOut : Bool)
  | completed (rcZero : Bool) (outCreated : Bool) (outBig : Bool)

structure EmbedEnv where
  copyVideoOk : Bool
  copySrtOk : Bool
  run : RunOutcome

structure EmbedResult where
  ok : Bool
  fs : FSState
  cwd : String

/-- The scratch working directory (`SIMPLE_TEMP_DIR`). -/
def workDirPath : String := "~/tempfiles"

/-- `embed_subtitles_safe(video_path, srt_path, user_id, font_size, font_color)`.

Faithful control flow: if a `shutil.copyfile` raises, the `except` handler
executes `os.chdir(original_dir)` before `original_dir` was ever assigned,
which itself raises `NameError` — `cleanup_files` is NOT reached on those
paths and the working directory was never changed.  After both copies the
code saves `original_dir`, chdirs to the work dir, runs the transcoder,
and on every remaining path chdirs back before raising or returning.  On
the success path the scratch copies are NOT cleaned up. -/
def embed_subtitles_safe (env : EmbedEnv) (fs : FSState) (cwd : String) : EmbedResult :=
  if !env.copyVideoOk then ⟨false, fs, cwd⟩
  else
    let fs1 := fsInsert fs .simpleVideo
    if !env.copySrtOk then ⟨false, fs1, cwd⟩
    else
      let fs2 := fsInsert fs1 .simpleSrt
      let originalDir := cwd
      let _cwd1 := workDirPath
      match env.run with
      | .timeout partialOut =>
        let fs3 := if partialOut then fsInsert fs2 .output else fs2
        let cwd2 := originalDir
        ⟨false, cleanupScratch fs3, cwd2⟩
      | .completed rcZero outCreated outBig =>
        let fs3 := if outCreated then fsInsert fs2 .output else fs2
        let cwd2 := originalDir
        if !rcZero then ⟨false, cleanupScratch fs3, cwd2⟩
        else if outCreated && outBig then ⟨true, fs3, cwd2⟩
        else ⟨false, cleanupScratch fs3, cwd2⟩

/-- Environment for one `process_video_complete` job: outcome of audio
extraction, the transcription result, the per-segment translation
environment, the subtitle-file write outcome, the embed environment, the
output-size check, and the final send. -/
structure PipeEnv where
  extractOk : Bool
  segments : List Segment
  segEnv : ℕ → SegEnv
  srtOk : Bool
  embedEnv : EmbedEnv
  outputTooLarge : Bool
  sendOk : Bool

structure PipeResult where
  fs : FSState
  delivered : Bool

/-- The `finally: cleanup_files(audio_path, srt_path, output_path)` block;
a flag is true when the corresponding Python variable was assigned
(otherwise it is still `None` and `cleanup_files` skips it). -/
def finallyCleanup (fs : FSState) (audioSet srtSet outSet : Bool) : FSState :=
  let fs1 := if audioSet then fsErase fs .audio else fs
  let fs2 := if srtSet then fsErase fs1 .srt else fs1
  if outSet then fsErase fs2 .output else fs2

/-- The starting filesystem for a job: only the downloaded input video. -/
def initialFS : FSState :=
  fun p => match p with | .input => true | _ => false

/-- `process_video_complete(video_path, update, context)` (lines 408-517).
`extract_audio_safe` removes its own artifact before raising, so a failed
extraction leaves no audio file; likewise `create_srt_file_safe`.  The
working directory of the process is `workDirPath`-independent; the embed
stage is entered with some current directory (its value is irrelevant to
the filesystem claim). -/
def process_video_complete (env : PipeEnv) (fs0 : FSState) : PipeResult :=
  if !env.extractOk then ⟨finallyCleanup fs0 false false false, false⟩
  else
    let fs1 := fsInsert fs0 .audio
    if env.segments.isEmpty then ⟨finallyCleanup fs1 true false false, false⟩
    else
      let hebrew := process_segments_safe env.segEnv env.segments
      if hebrew.isEmpty then ⟨finallyCleanup fs1 true false false, false⟩
      else if !env.srtOk then ⟨finallyCleanup fs1 true false false, false⟩
      else
        let fs2 := fsInsert fs1 .srt
        let er := embed_subtitles_safe env.embedEnv fs2 "~"
        if !er.ok then ⟨finallyCleanup er.fs true true false, false⟩
        else if env.outputTooLarge then ⟨finallyCleanup er.fs true true true, false⟩
        else if !env.sendOk then ⟨finallyCleanup er.fs true true true, false⟩
        else ⟨finallyCleanup er.fs true true true, true⟩

/-! ### Concrete environments used in counterexamples and witnesses -/

/-- A translation oracle whose every attempt raises. -/
def allFailOracle : ℕ → TransAttempt := fun _ => .fail

/-- A per-segment environment in which the translation engine fails for
every segment (every attempt raises). -/
def allFailSegEnv : ℕ → SegEnv := fun _ => .translate allFailOracle

/-- A per-segment environment in which every translation succeeds
immediately with a fixed engine answer. -/
def okSegEnv : ℕ → SegEnv := fun _ => .translate (fun _ => .result "shalom")

/-- A fully successful job environment. -/
def allOkPipeEnv : PipeEnv :=
  ⟨true, [⟨0, 2, "Hello there"⟩, ⟨2, 5, "How are you?"⟩], okSegEnv, true,
    ⟨true, true, .completed true true true⟩, false, true⟩

/-- A job environment where everything succeeds except that every
translation attempt fails. -/
def transFailPipeEnv : PipeEnv :=
  ⟨true, [⟨0, 2, "Hello there"⟩, ⟨2, 5, "How are you?"⟩], allFailSegEnv, true,
    ⟨true, true, .completed true true true⟩, false, true⟩

/-! ## Lemmas about the punctuation-spacing pass -/

theorem subMark_cons_of_ne (ws : Char → Bool) (m c : Char) (cs : List Char) (hc : c ≠ m) :
    subMark ws m (c :: cs) = c :: subMark ws m cs := by
  simp [subMark, hc]

theorem subMark_single_eq (ws : Char → Bool) (m : Char) :
    subMark ws m [m] = [m, ' '] := by
  simp [subMark]

theorem subMark_cons2_sp (ws : Char → Bool) (m d : Char) (t : List Char) (hd : ws d = true) :
    subMark ws m (m :: d :: t) = m :: subMark ws m (d :: t) := by
  simp [subMark, hd]

theorem subMark_cons2_nsp (ws : Char → Bool) (m d : Char) (t : List Char) (hd : ws d = false) :
    subMark ws m (m :: d :: t) = m :: ' ' :: subMark ws m (d :: t) := by
  simp [subMark, hd]

theorem subMark_head (ws : Char → Bool) (m : Char) :
    ∀ s : List Char, (subMark ws m s).head? = s.head?
  | [] => rfl
  | c :: cs => by
    by_cases hc : c = m
    · subst hc
      cases cs with
      | nil => rw [subMark_single_eq]; rfl
      | cons d t =>
        by_cases hd : ws d
        · rw [subMark_cons2_sp ws c d t hd]; rfl
        · rw [subMark_cons2_nsp ws c d t (by simpa using hd)]; rfl
    · rw [subMark_cons_of_ne ws m c cs hc]; rfl

theorem subMark_ne_nil (ws : Char → Bool) (m : Char) (s : List Char) (h : s ≠ []) :
    subMark ws m s ≠ [] := by
  intro hcon
  have h1 := subMark_head ws m s
  rw [hcon] at h1
  cases s with
  | nil => exact h rfl
  | cons c cs => simp at h1

theorem marksSpaced_cons (ws : Char → Bool) (m c : Char) (t : List Char) :
    marksSpaced ws m (c :: t) =
      ((if c = m then (match t.head? with | some d => ws d | none => false) else true) &&
        marksSpaced ws m t) := rfl

theorem space_ne_mark (ws : Char → Bool) (m : Char) (hsp : ws ' ' = true)
    (hm : ws m = false) : (' ' : Char) ≠ m := by
  intro h
  rw [← h, hsp] at hm
  cases hm

theorem marksSpaced_subMark (ws : Char → Bool) (m : Char) (hsp : ws ' ' = true)
    (hm : ws m = false) : ∀ s : List Char, marksSpaced ws m (subMark ws m s) = true
  | [] => rfl
  | [c] => by
    have hsm := space_ne_mark ws m hsp hm
    by_cases hc : c = m
    · subst hc
      rw [subMark_single_eq]
      simp [marksSpaced_cons, marksSpaced, hsp, hsm]
    · rw [subMark_cons_of_ne ws m c [] hc]
      simp [marksSpaced_cons, marksSpaced, hc]
  | c :: d :: t => by
    have ih := marksSpaced_subMark ws m hsp hm (d :: t)
    have hsm := space_ne_mark ws m hsp hm
    have hhead : (subMark ws m (d :: t)).head? = some d := by
      rw [subMark_head]; rfl
    by_cases hc : c = m
    · subst hc
      by_cases hd : ws d
      · rw [subMark_cons2_sp ws c d t hd]
        simp [marksSpaced_cons, hhead, ih, hd]
      · rw [subMark_cons2_nsp ws c d t (by simpa using hd)]
        rw [marksSpaced_cons, marksSpaced_cons]
        simp [hhead, ih, hsp, hsm]
    · rw [subMark_cons_of_ne ws m c (d :: t) hc]
      simp [marksSpaced_cons, hhead, ih, hc]

theorem subMark_of_marksSpaced (ws : Char → Bool) (m : Char) :
    ∀ s : List Char, marksSpaced ws m s = true → subMark ws m s = s
  | [] => fun _ => rfl
  | [c] => by
    intro h
    by_cases hc : c = m
    · subst hc; simp [marksSpaced] at h
    · rw [subMark_cons_of_ne ws m c [] hc, subMark]
  | c :: d :: t => by
    intro h
    rw [marksSpaced_cons] at h
    have h2 := (Bool.and_eq_true _ _).mp h
    have ih := subMark_of_marksSpaced ws m (d :: t) h2.2
    by_cases hc : c = m
    · subst hc
      have hd : ws d = true := by simpa using h2.1
      rw [subMark_cons2_sp ws c d t hd, ih]
    · rw [subMark_cons_of_ne ws m c (d :: t) hc, ih]

theorem marksSpaced_subMark_other (ws : Char → Bool) (m mk : Char) (hsp : ws ' ' = true)
    (hm : ws m = false) (hmk : ws mk = false) :
    ∀ s : List Char, marksSpaced ws m s = true → marksSpaced ws m (subMark ws mk s) = true := by
  by_cases hmm : m = mk
  · subst hmm
    intro s _
    exact marksSpaced_subMark ws m hsp hm s
  · have hcm : mk ≠ m := fun hh => hmm hh.symm
    have hsm := space_ne_mark ws m hsp hm
    intro s
    induction s with
    | nil => intro h; exact h
    | cons c cs ih =>
      intro h
      cases cs with
      | nil =>
        by_cases hmc : c = m
        · subst hmc; simp [marksSpaced] at h
        · by_cases hc : c = mk
          · subst hc
            rw [subMark_single_eq]
            simp [marksSpaced_cons, marksSpaced, hmc, hsm]
          · rw [subMark_cons_of_ne ws mk c [] hc]
            simp [marksSpaced_cons, marksSpaced, hmc]
      | cons d t =>
        rw [marksSpaced_cons] at h
        have h2 := (Bool.and_eq_true _ _).mp h
        have htail := ih h2.2
        have hhead : (subMark ws mk (d :: t)).head? = some d := by
          rw [subMark_head]; rfl
        by_cases hc : c = mk
        · subst hc
          by_cases hd : ws d
          · rw [subMark_cons2_sp ws c d t hd]
            simp [marksSpaced_cons, hhead, htail, hcm]
          · rw [subMark_cons2_nsp ws c d t (by simpa using hd)]
            rw [marksSpaced_cons, marksSpaced_cons]
            simp [hhead, htail, hcm, hsm]
        · by_cases hmc : c = m
          · subst hmc
            have hd : ws d = true := by simpa using h2.1
            rw [subMark_cons_of_ne ws mk c (d :: t) hc]
            simp [marksSpaced_cons, hhead, htail, hd]
          · rw [subMark_cons_of_ne ws mk c (d :: t) hc]
            simp [marksSpaced_cons, hhead, htail, hmc]

theorem applyMarks_nil (ws : Char → Bool) (s : List Char) : applyMarks ws [] s = s := rfl

theorem applyMarks_cons (ws : Char → Bool) (m : Char) (ms : List Char) (s : List Char) :
    applyMarks ws (m :: ms) s = applyMarks ws ms (subMark ws m s) := rfl

theorem marksSpaced_applyMarks (ws : Char → Bool) (m : Char) (ms : List Char)
    (hsp : ws ' ' = true) (hm : ws m = false) (hall : ∀ x ∈ ms, ws x = false) :
    ∀ s : List Char, marksSpaced ws m s = true → marksSpaced ws m (applyMarks ws ms s) = true := by
  induction ms with
  | nil => intro s h; exact h
  | cons mk rest ih =>
    intro s h
    rw [applyMarks_cons]
    exact ih (fun x hx => hall x (List.mem_cons_of_mem mk hx))
      (subMark ws mk s)
      (marksSpaced_subMark_other ws m mk hsp hm (hall mk (List.mem_cons_self mk rest)) s h)

theorem marksSpaced_applyMarks_mem (ws : Char → Bool) (ms : List Char)
    (hsp : ws ' ' = true) (hall : ∀ x ∈ ms, ws x = false) :
    ∀ m ∈ ms, ∀ s : List Char, marksSpaced ws m (applyMarks ws ms s) = true := by
  induction ms with
  | nil => intro m hmem; cases hmem
  | cons mk rest ih =>
    intro m hmem s
    have hallrest : ∀ x ∈ rest, ws x = false :=
      fun x hx => hall x (List.mem_cons_of_mem mk hx)
    rcases List.mem_cons.mp hmem with hmk | hrest
    · subst hmk
      rw [applyMarks_cons]
      exact marksSpaced_applyMarks ws m rest hsp (hall m (List.mem_cons_self m rest)) hallrest
        (subMark ws m s) (marksSpaced_subMark ws m hsp (hall m (List.mem_cons_self m rest)) s)
    · rw [applyMarks_cons]
      exact ih hallrest m hrest (subMark ws mk s)

theorem applyMarks_of_marksSpaced (ws : Char → Bool) (ms : List Char) (s : List Char)
    (h : ∀ m ∈ ms, marksSpaced ws m s = true) : applyMarks ws ms s = s := by
  induction ms with
  | nil => rfl
  | cons mk rest ih =>
    rw [applyMarks_cons, subMark_of_marksSpaced ws mk s (h mk (List.mem_cons_self mk rest))]
    exact ih (fun m hm => h m (List.mem_cons_of_mem mk hm))

theorem applyMarks_idem (ws : Char → Bool) (ms : List Char) (s : List Char)
    (hsp : ws ' ' = true) (hall : ∀ x ∈ ms, ws x = false) :
    applyMarks ws ms (applyMarks ws ms s) = applyMarks ws ms s :=
  applyMarks_of_marksSpaced ws ms (applyMarks ws ms s)
    (fun m hm => marksSpaced_applyMarks_mem ws ms hsp hall m hm s)

theorem applyMarks_ne_nil (ws : Char → Bool) (ms : List Char) (s : List Char) (h : s ≠ []) :
    applyMarks ws ms s ≠ [] := by
  induction ms generalizing s with
  | nil => exact h
  | cons mk rest ih =>
    rw [applyMarks_cons]
    exact ih (subMark ws mk s) (subMark_ne_nil ws mk s h)

theorem string_data_mk (l : List Char) : (⟨l⟩ : String).data = l := rfl

theorem string_eq_empty_iff (x : String) : x = "" ↔ x.data = [] := by
  constructor
  · intro h; rw [h]
  · intro h
    cases x with
    | mk d => cases h; rfl

/-- C4: the punctuation-spacing operation is idempotent. -/
theorem c4_add_space_idempotent (x : String) :
    add_space_after_punctuation (add_space_after_punctuation x) =
      add_space_after_punctuation x := by
  by_cases hx : x = ""
  · subst hx; rfl
  · have hdata : x.data ≠ [] := fun h => hx ((string_eq_empty_iff x).mpr h)
    have hsp : pySpace ' ' = true := by decide
    have hall : ∀ m ∈ punctuation_marks, pySpace m = false := by decide
    have hy : add_space_after_punctuation x = ⟨applyMarks pySpace punctuation_marks x.data⟩ := by
      rw [add_space_after_punctuation, if_neg hx]
    rw [hy]
    have hyne : (⟨applyMarks pySpace punctuation_marks x.data⟩ : String) ≠ "" := by
      intro h
      exact applyMarks_ne_nil pySpace punctuation_marks x.data hdata
        ((string_eq_empty_iff _).mp h)
    rw [add_space_after_punctuation, if_neg hyne, string_data_mk,
      applyMarks_idem pySpace punctuation_marks x.data hsp hall]

/-! ## Lemmas about the last character under the punctuation pass -/

theorem subMark_getLast (ws : Char → Bool) (m : Char) :
    ∀ s : List Char,
      (subMark ws m s).getLast? = s.getLast?.map (fun c => if c = m then ' ' else c)
  | [] => rfl
  | [c] => by
    by_cases hc : c = m
    · subst hc
      rw [subMark_single_eq]
      simp
    · rw [subMark_cons_of_ne ws m c [] hc]
      simp [subMark, hc]
  | c :: d :: t => by
    have ih := subMark_getLast ws m (d :: t)
    have hne : subMark ws m (d :: t) ≠ [] := subMark_ne_nil ws m (d :: t) (by simp)
    obtain ⟨y, ys, hys⟩ := List.exists_cons_of_ne_nil hne
    by_cases hc : c = m
    · subst hc
      by_cases hd : ws d
      · rw [subMark_cons2_sp ws c d t hd, hys, List.getLast?_cons_cons, ← hys, ih,
          List.getLast?_cons_cons]
      · rw [subMark_cons2_nsp ws c d t (by simpa using hd), hys, List.getLast?_cons_cons,
          List.getLast?_cons_cons, ← hys, ih, List.getLast?_cons_cons]
    · rw [subMark_cons_of_ne ws m c (d :: t) hc, hys, List.getLast?_cons_cons, ← hys, ih,
        List.getLast?_cons_cons]

theorem applyMarks_getLast_space (ws : Char → Bool) (ms : List Char)
    (hall : ∀ x ∈ ms, ws x = false) (hsp : ws ' ' = true) :
    ∀ s : List Char, s.getLast? = some ' ' → (applyMarks ws ms s).getLast? = some ' ' := by
  induction ms with
  | nil => intro s h; exact h
  | cons mk rest ih =>
    intro s h
    rw [applyMarks_cons]
    apply ih (fun x hx => hall x (List.mem_cons_of_mem mk hx))
    rw [subMark_getLast, h]
    have : (' ' : Char) ≠ mk :=
      space_ne_mark ws mk hsp (hall mk (List.mem_cons_self mk rest))
    simp [this]

theorem applyMarks_getLast_mark (ws : Char → Bool) (ms : List Char)
    (hall : ∀ x ∈ ms, ws x = false) (hsp : ws ' ' = true) :
    ∀ c ∈ ms, ∀ s : List Char, s.getLast? = some c →
      (applyMarks ws ms s).getLast? = some ' ' := by
  induction ms with
  | nil => intro c hmem; cases hmem
  | cons mk rest ih =>
    intro c hmem s h
    have hallrest : ∀ x ∈ rest, ws x = false :=
      fun x hx => hall x (List.mem_cons_of_mem mk hx)
    rw [applyMarks_cons]
    by_cases hcmk : c = mk
    · subst hcmk
      apply applyMarks_getLast_space ws rest hallrest hsp
      rw [subMark_getLast, h]
      simp
    · rcases List.mem_cons.mp hmem with hx | hrest
      · exact absurd hx hcmk
      · apply ih hallrest c hrest
        rw [subMark_getLast, h]
        simp [hcmk]

/-- C10: a string ending in one of the handled punctuation marks ends in a
space after `add_space_after_punctuation` (end of string counts as "not
followed by whitespace", so a space is appended there too). -/
theorem c10_trailing_space (x : String) (c : Char) (hc : c ∈ punctuation_marks)
    (hlast : x.data.getLast? = some c) :
    (add_space_after_punctuation x).data.getLast? = some ' ' := by
  have hx : x ≠ "" := by
    intro h
    rw [(string_eq_empty_iff x).mp h] at hlast
    cases hlast
  rw [add_space_after_punctuation, if_neg hx, string_data_mk]
  exact applyMarks_getLast_mark pySpace punctuation_marks (by decide) (by decide)
    c hc x.data hlast

/-- Witness for C10 at the concrete input `"Hi."`. -/
theorem c10_trailing_space_witness :
    ('.' ∈ punctuation_marks) ∧
      ("Hi.".data.getLast? = some '.') ∧
      (add_space_after_punctuation "Hi.").data.getLast? = some ' ' :=
  ⟨by decide, by decide, c10_trailing_space "Hi." '.' (by decide) (by decide)⟩

/-! ## Lemmas about the segment-translation pass -/

theorem processSegmentsGo_length (env : ℕ → SegEnv) :
    ∀ (i : ℕ) (segs : List Segment),
      (processSegmentsGo env i segs).length =
        (segs.filter (fun s => decide (pyStrip s.text ≠ ""))).length
  | _, [] => rfl
  | i, seg :: rest => by
    have ih := processSegmentsGo_length env (i + 1) rest
    by_cases h : pyStrip seg.text = "" <;> simp [processSegmentsGo, h, ih]

theorem processSegmentsGo_map_times (env : ℕ → SegEnv) :
    ∀ (i : ℕ) (segs : List Segment),
      (processSegmentsGo env i segs).map (fun s => (s.start, s.endT)) =
        (segs.filter (fun s => decide (pyStrip s.text ≠ ""))).map (fun s => (s.start, s.endT))
  | _, [] => rfl
  | i, seg :: rest => by
    have ih := processSegmentsGo_map_times env (i + 1) rest
    by_cases h : pyStrip seg.text = "" <;> simp [processSegmentsGo, h, ih]

/-- C1 counterexample: a single segment whose text is empty is dropped by
`process_segments_safe`, so the output length differs from the input
length. -/
theorem c1_counterexample :
    (process_segments_safe (fun _ => SegEnv.raise) [⟨0, 1, ""⟩]).length ≠
      ([⟨0, 1, ""⟩] : List Segment).length := by
  decide

/-- C1 amended: the segment-translation pass emits, in input order, exactly
one segment for each input segment whose text is non-empty after
stripping; in particular the output length equals the number of such
segments under EVERY environment (so no segment is lost to translation
failure — only empty/whitespace-only segments are dropped). -/
theorem c1_amended (env : ℕ → SegEnv) (segs : List Segment) :
    (process_segments_safe env segs).length =
      (segs.filter (fun s => decide (pyStrip s.text ≠ ""))).length :=
  processSegmentsGo_length env 0 segs

/-- C9: translation changes only the text field — the emitted segments carry
exactly the start/end timestamps of the retained (non-empty-text) input
segments, in the same order, under every environment. -/
theorem c9_timestamps_order (env : ℕ → SegEnv) (segs : List Segment) :
    (process_segments_safe env segs).map (fun s => (s.start, s.endT)) =
      (segs.filter (fun s => decide (pyStrip s.text ≠ ""))).map (fun s => (s.start, s.endT)) :=
  processSegmentsGo_map_times env 0 segs

/-! ## Lemmas about translate_text_safe -/

theorem translateGo_none (oracle : ℕ → TransAttempt) (maxR : ℕ)
    (h : ∀ i, i < maxR → transSuccess (oracle i) = false) :
    ∀ rem, rem ≤ maxR → (translateGo oracle maxR rem).1 = none
  | 0, _ => rfl
  | rem + 1, hle => by
    have hi : maxR - (rem + 1) < maxR := by omega
    have ih := translateGo_none oracle maxR h rem (by omega)
    cases ho : oracle (maxR - (rem + 1)) with
    | result t =>
      have ht := h _ hi
      rw [ho] at ht
      have : t = "" := by simpa [transSuccess] using ht
      simp [translateGo, ho, this, ih]
    | fail =>
      simp only [translateGo, ho]
      split <;> simpa using ih

theorem translate_allFail_fst (text : String) :
    (translate_text_safe allFailOracle text 3).1 = text := by
  by_cases h : pyStrip text = ""
  · simp [translate_text_safe, h]
  · have hgo : translateGo allFailOracle 3 3 = (none, [1, 1]) := rfl
    simp [translate_text_safe, h, hgo]

theorem segOutText_allFail (i : ℕ) (s : Segment) :
    segOutText (allFailSegEnv i) s = add_space_after_punctuation (pyStrip s.text) := by
  simp [segOutText, allFailSegEnv, translate_allFail_fst]

theorem processSegmentsGo_map_text_allFail :
    ∀ (i : ℕ) (segs : List Segment),
      (processSegmentsGo allFailSegEnv i segs).map (fun s => s.text) =
        (segs.filter (fun s => decide (pyStrip s.text ≠ ""))).map
          (fun s => add_space_after_punctuation (pyStrip s.text))
  | _, [] => rfl
  | i, seg :: rest => by
    have ih := processSegmentsGo_map_text_allFail (i + 1) rest
    by_cases h : pyStrip seg.text = "" <;> simp [processSegmentsGo, h, ih, segOutText_allFail]

/-- C7 counterexample: when every translation attempt fails, the emitted
text is the stripped original with punctuation spacing applied — for
`"How are you?"` the final text is `"How are you? "`, which is NOT equal
to the original English text. -/
theorem c7_counterexample :
    (process_segments_safe allFailSegEnv [⟨0, 1, "How are you?"⟩]).map (fun s => s.text) =
        ["How are you? "] ∧
      ("How are you? " : String) ≠ "How are you?" := by
  constructor
  · decide
  · decide

/-- C7 amended: per-segment translation failure is recovered, never fatal:
`translate_text_safe` consults at most the fixed bound of 3 attempts and,
if none is accepted, returns its original `text` argument unchanged; the
inter-attempt delay on failed attempts is the fixed 1 second; when the
engine fails for every segment, every emitted segment's final subtitle
text equals the original English text stripped of surrounding whitespace
and with punctuation spacing applied, and the job still completes
successfully. -/
theorem c7_amended :
    (∀ (oracle : ℕ → TransAttempt) (text : String),
        (∀ i, i < 3 → transSuccess (oracle i) = false) →
          (translate_text_safe oracle text 3).1 = text) ∧
      (∀ (oracle : ℕ → TransAttempt) (text : String),
        pyStrip text ≠ "" → (∀ i, i < 3 → oracle i = .fail) →
          (translate_text_safe oracle text 3).2 = [1, 1]) ∧
      (∀ segs : List Segment,
        (process_segments_safe allFailSegEnv segs).map (fun s => s.text) =
          (segs.filter (fun s => decide (pyStrip s.text ≠ ""))).map
            (fun s => add_space_after_punctuation (pyStrip s.text))) ∧
      (process_video_complete transFailPipeEnv initialFS).delivered = true := by
  refine ⟨?_, ?_, ?_, ?_⟩
  · intro oracle text h
    by_cases ht : pyStrip text = ""
    · simp [translate_text_safe, ht]
    · have hnone := translateGo_none oracle 3 h 3 (by omega)
      rcases hgo : translateGo oracle 3 3 with ⟨fst, sl⟩
      rw [hgo] at hnone
      simp at hnone
      subst hnone
      simp [translate_text_safe, ht, hgo]
  · intro oracle text ht h
    have h0 := h 0 (by omega)
    have h1 := h 1 (by omega)
    have h2 := h 2 (by omega)
    have hgo : translateGo oracle 3 3 = (none, [1, 1]) := by
      simp [translateGo, h0, h1, h2]
    simp [translate_text_safe, ht, hgo]
  · intro segs
    exact processSegmentsGo_map_text_allFail 0 segs
  · decide

/-- Witness for C7 amended, at a concrete oracle, text and segment list. -/
theorem c7_amended_witness :
    ((translate_text_safe allFailOracle "Hello" 3).1 = "Hello") ∧
      ((translate_text_safe allFailOracle "Hello" 3).2 = [1, 1]) ∧
      (process_segments_safe allFailSegEnv [⟨0, 2, "Hi."⟩]).map (fun s => s.text) =
        [add_space_after_punctuation "Hi."] :=
  ⟨c7_amended.1 allFailOracle "Hello" (fun i _ => rfl),
    c7_amended.2.1 allFailOracle "Hello" (by decide) (fun i _ => rfl),
    by
      have h := c7_amended.2.2.1 [⟨0, 2, "Hi."⟩]
      simpa using h⟩

/-! ## Lemmas about embed_subtitles_safe and the pipeline -/

/-- C5: `embed_subtitles_safe` leaves the process working directory at its
original value on every exit path (normal return, non-zero transcoder
exit, timeout, missing/too-small output, and the copy-failure paths —
on the latter the directory was never changed). -/
theorem c5_workdir_restored (env : EmbedEnv) (fs : FSState) (cwd : String) :
    (embed_subtitles_safe env fs cwd).cwd = cwd := by
  rcases env with ⟨cv, cs, run⟩
  cases cv
  · simp [embed_subtitles_safe]
  · cases cs
    · simp [embed_subtitles_safe]
    · cases run with
      | timeout p => simp [embed_subtitles_safe]
      | completed rc oc ob =>
        cases rc <;> cases oc <;> cases ob <;> simp [embed_subtitles_safe]

theorem embed_fs_audio (env : EmbedEnv) (fs : FSState) (cwd : String) :
    (embed_subtitles_safe env fs cwd).fs TPath.audio = fs TPath.audio := by
  rcases env with ⟨cv, cs, run⟩
  cases cv
  · simp [embed_subtitles_safe]
  · cases cs
    · simp [embed_subtitles_safe, fsInsert]
    · cases run with
      | timeout p =>
        cases p <;> simp [embed_subtitles_safe, fsInsert, fsErase, cleanupScratch]
      | completed rc oc ob =>
        cases rc <;> cases oc <;> cases ob <;>
          simp [embed_subtitles_safe, fsInsert, fsErase, cleanupScratch]

theorem embed_fs_srt (env : EmbedEnv) (fs : FSState) (cwd : String) :
    (embed_subtitles_safe env fs cwd).fs TPath.srt = fs TPath.srt := by
  rcases env with ⟨cv, cs, run⟩
  cases cv
  · simp [embed_subtitles_safe]
  · cases cs
    · simp [embed_subtitles_safe, fsInsert]
    · cases run with
      | timeout p =>
        cases p <;> simp [embed_subtitles_safe, fsInsert, fsErase, cleanupScratch]
      | completed rc oc ob =>
        cases rc <;> cases oc <;> cases ob <;>
          simp [embed_subtitles_safe, fsInsert, fsErase, cleanupScratch]

theorem embed_fail_output (env : EmbedEnv) (fs : FSState) (cwd : String)
    (hout : fs TPath.output = false) (hfail : (embed_subtitles_safe env fs cwd).ok = false) :
    (embed_subtitles_safe env fs cwd).fs TPath.output = false := by
  rcases env with ⟨cv, cs, run⟩
  cases cv
  · simpa [embed_subtitles_safe] using hout
  · cases cs
    · simpa [embed_subtitles_safe, fsInsert] using hout
    · cases run with
      | timeout p =>
        cases p <;> simp [embed_subtitles_safe, fsInsert, fsErase, cleanupScratch]
      | completed rc oc ob =>
        cases rc <;> cases oc <;> cases ob <;>
          simp_all [embed_subtitles_safe, fsInsert, fsErase, cleanupScratch]

theorem finallyCleanup_audio (fs : FSState) (a s o : Bool) :
    finallyCleanup fs a s o TPath.audio = if a then false else fs TPath.audio := by
  cases a <;> cases s <;> cases o <;> simp [finallyCleanup, fsErase]

theorem finallyCleanup_srt (fs : FSState) (a s o : Bool) :
    finallyCleanup fs a s o TPath.srt = if s then false else fs TPath.srt := by
  cases a <;> cases s <;> cases o <;> simp [finallyCleanup, fsErase]

theorem finallyCleanup_output (fs : FSState) (a s o : Bool) :
    finallyCleanup fs a s o TPath.output = if o then false else fs TPath.output := by
  cases a <;> cases s <;> cases o <;> simp [finallyCleanup, fsErase]

theorem pvc_no_core_leak (env : PipeEnv) (p : TPath)
    (hp : p = TPath.audio ∨ p = TPath.srt ∨ p = TPath.output) :
    (process_video_complete env initialFS).fs p = false := by
  rcases env with ⟨ex, segs, senv, sok, eenv, otl, dok⟩
  simp only [process_video_complete]
  split
  · rcases hp with h | h | h <;> subst h <;>
      simp [finallyCleanup_audio, finallyCleanup_srt, finallyCleanup_output, initialFS]
  · split
    · rcases hp with h | h | h <;> subst h <;>
        simp [finallyCleanup_audio, finallyCleanup_srt, finallyCleanup_output, fsInsert,
          initialFS]
    · split
      · rcases hp with h | h | h <;> subst h <;>
          simp [finallyCleanup_audio, finallyCleanup_srt, finallyCleanup_output, fsInsert,
            initialFS]
      · split
        · rcases hp with h | h | h <;> subst h <;>
            simp [finallyCleanup_audio, finallyCleanup_srt, finallyCleanup_output, fsInsert,
              initialFS]
        · split
          · next hfail =>
            have hfo : (embed_subtitles_safe eenv
                (fsInsert (fsInsert initialFS TPath.audio) TPath.srt) "~").fs TPath.output =
                false := by
              apply embed_fail_output
              · simp [fsInsert, initialFS]
              · simpa using hfail
            rcases hp with h | h | h <;> subst h <;>
              simp [finallyCleanup_audio, finallyCleanup_srt, finallyCleanup_output, hfo]
          · split
            · rcases hp with h | h | h <;> subst h <;>
                simp [finallyCleanup_audio, finallyCleanup_srt, finallyCleanup_output]
            · split
              · rcases hp with h | h | h <;> subst h <;>
                  simp [finallyCleanup_audio, finallyCleanup_srt, finallyCleanup_output]
              · rcases hp with h | h | h <;> subst h <;>
                  simp [finallyCleanup_audio, finallyCleanup_srt, finallyCleanup_output]

/-- C2 counterexample: on a fully successful job the scratch copies made by
`embed_subtitles_safe` (the short-name video and subtitle copies) are
still on disk after the orchestrator returns, even though the job was
delivered. -/
theorem c2_counterexample :
    (process_video_complete allOkPipeEnv initialFS).fs TPath.simpleVideo = true ∧
      (process_video_complete allOkPipeEnv initialFS).fs TPath.simpleSrt = true ∧
      (process_video_complete allOkPipeEnv initialFS).delivered = true := by
  refine ⟨by decide, by decide, by decide⟩

/-- C2 amended: after `process_video_complete` returns (success or failure,
any stage), the audio file, the subtitle file and the output file no
longer exist; the scratch video/subtitle copies, however, are only
guaranteed gone on the failing embed paths, not on the success path. -/
theorem c2_amended (env : PipeEnv) :
    (process_video_complete env initialFS).fs TPath.audio = false ∧
      (process_video_complete env initialFS).fs TPath.srt = false ∧
      (process_video_complete env initialFS).fs TPath.output = false :=
  ⟨pvc_no_core_leak env TPath.audio (Or.inl rfl),
    pvc_no_core_leak env TPath.srt (Or.inr (Or.inl rfl)),
    pvc_no_core_leak env TPath.output (Or.inr (Or.inr rfl))⟩

/-! ## Lemmas about create_srt_file_safe -/

theorem entryLines_length (e : SrtEntry) : (entryLines e).length = 4 := rfl

theorem srtWriteGo_eq_entries :
    ∀ (i : ℕ) (segs : List Segment),
      srtWriteGo i segs = (srtEntriesGo i segs).flatMap entryLines
  | _, [] => rfl
  | i, seg :: rest => by
    by_cases h : seg.text = ""
    · have ih := srtWriteGo_eq_entries i rest
      simp [srtWriteGo, srtEntriesGo, h, ih]
    · have ih := srtWriteGo_eq_entries (i + 1) rest
      simp [srtWriteGo, srtEntriesGo, h, ih, entryLines]

theorem srtEntriesGo_indices :
    ∀ (i : ℕ) (segs : List Segment),
      (srtEntriesGo i segs).map (fun e => e.index) =
        List.range' i ((segs.filter (fun s => decide (s.text ≠ ""))).length)
  | _, [] => rfl
  | i, seg :: rest => by
    by_cases h : seg.text = ""
    · have ih := srtEntriesGo_indices i rest
      simp [srtEntriesGo, h, ih]
    · have ih := srtEntriesGo_indices (i + 1) rest
      simp [srtEntriesGo, h, ih, List.range'_succ]

theorem srtEntriesGo_texts :
    ∀ (i : ℕ) (segs : List Segment),
      (srtEntriesGo i segs).map (fun e => e.text) =
        (segs.filter (fun s => decide (s.text ≠ ""))).map (fun s => s.text)
  | _, [] => rfl
  | i, seg :: rest => by
    by_cases h : seg.text = ""
    · have ih := srtEntriesGo_texts i rest
      simp [srtEntriesGo, h, ih]
    · have ih := srtEntriesGo_texts (i + 1) rest
      simp [srtEntriesGo, h, ih]

theorem srtEntriesGo_times :
    ∀ (i : ℕ) (segs : List Segment),
      (srtEntriesGo i segs).map (fun e => (e.startT, e.endT)) =
        (segs.filter (fun s => decide (s.text ≠ ""))).map
          (fun s => (format_srt_time (.num s.start), format_srt_time (.num s.endT)))
  | _, [] => rfl
  | i, seg :: rest => by
    by_cases h : seg.text = ""
    · have ih := srtEntriesGo_times i rest
      simp [srtEntriesGo, h, ih]
    · have ih := srtEntriesGo_times (i + 1) rest
      simp [srtEntriesGo, h, ih]

theorem length_flatMap_entryLines (entries : List SrtEntry) :
    (entries.flatMap entryLines).length = 4 * entries.length := by
  induction entries with
  | nil => rfl
  | cons e rest ih =>
    simp only [List.flatMap_cons, List.length_append, entryLines_length, ih,
      List.length_cons]
    omega

/-- C8: `create_srt_file_safe` skips exactly the segments whose final text
is empty, numbers the emitted entries contiguously from 1, preserves text
and formatted timestamps of the kept segments in order, and writes each
emitted entry as exactly four lines (index line, `start --> end` line,
text line, blank separator line). -/
theorem c8_srt_structure (segs : List Segment) :
    create_srt_file_safe segs = (srtEntries segs).flatMap entryLines ∧
      (srtEntries segs).map (fun e => e.index) =
        List.range' 1 ((segs.filter (fun s => decide (s.text ≠ ""))).length) ∧
      (srtEntries segs).map (fun e => e.text) =
        (segs.filter (fun s => decide (s.text ≠ ""))).map (fun s => s.text) ∧
      (srtEntries segs).map (fun e => (e.startT, e.endT)) =
        (segs.filter (fun s => decide (s.text ≠ ""))).map
          (fun s => (format_srt_time (.num s.start), format_srt_time (.num s.endT))) ∧
      (create_srt_file_safe segs).length = 4 * (srtEntries segs).length := by
  refine ⟨srtWriteGo_eq_entries 1 segs, srtEntriesGo_indices 1 segs, srtEntriesGo_texts 1 segs,
    srtEntriesGo_times 1 segs, ?_⟩
  rw [create_srt_file_safe, srtWriteGo_eq_entries 1 segs]
  exact length_flatMap_entryLines (srtEntriesGo 1 segs)

/-! ## Lemmas about download_file_safe -/

theorem dlGo_all_netError (o : ℕ → DlAttempt) (n : ℕ) (h : ∀ i, o i = .netError) :
    ∀ rem, rem ≤ n →
      dlGo o n rem =
        ((false, .exhausted), (List.range' (n - rem) (rem - 1)).map (fun i => 2 ^ i), rem)
  | 0, _ => by simp [dlGo]
  | 1, hle => by
    have h1 := h (n - 1)
    simp [dlGo, h1]
  | rem + 2, hle => by
    have ih := dlGo_all_netError o n h (rem + 1) (by omega)
    have hcur := h (n - (rem + 2))
    have hidx : n - (rem + 2) + 1 = n - (rem + 1) := by omega
    have hstep : dlGo o n (rem + 2) =
        ((dlGo o n (rem + 1)).1, 2 ^ (n - (rem + 2)) :: (dlGo o n (rem + 1)).2.1,
          (dlGo o n (rem + 1)).2.2 + 1) := by
      conv_lhs => rw [dlGo]
      rw [hcur]
      simp
    have hlist : List.range' (n - (rem + 2)) (rem + 2 - 1) =
        (n - (rem + 2)) :: List.range' (n - (rem + 1)) (rem + 1 - 1) := by
      rw [show rem + 2 - 1 = rem + 1 from rfl, List.range'_succ, hidx]
      rfl
    rw [hstep, ih, hlist]
    simp

/-- C6 counterexample: attempt 1 fails with a non-network `TelegramError`
(not one of the recognised non-transient `BadRequest` reasons), and the
code retries anyway — attempt 2 succeeds, two attempts were started and
no backoff sleep was performed.  This contradicts "retries ONLY on
transient network failures". -/
theorem c6_counterexample :
    download_file_safe
        (fun i => if i = 0 then DlAttempt.telegramError else DlAttempt.downloaded true 1000) 2 =
      ((true, DlMsg.success), [], 2) := by
  decide

/-- C6 amended: the recognised non-transient failures (declared size over
the 20 MB transport ceiling, file too big / not found / invalid id) return
immediately on the first attempt with their deterministic reason and no
sleep; transient network failures are retried with exponentially doubling
sleep (`2 ^ attempt`) between attempts, and a permanently unreachable file
exhausts the configured bound and returns the deterministic exhaustion
reason.  (Unrecognised `BadRequest`s, other Telegram errors, unexpected
exceptions and too-small downloads are ALSO retried, without sleeping —
that is the part the original claim got wrong.) -/
theorem c6_amended :
    (∀ (o : ℕ → DlAttempt) (n : ℕ), 1 ≤ n → o 0 = .declaredTooBig →
        download_file_safe o n = ((false, .tooBig20MB), [], 1)) ∧
      (∀ (o : ℕ → DlAttempt) (n : ℕ), 1 ≤ n → o 0 = .badTooBig →
        download_file_safe o n = ((false, .tooBigApi), [], 1)) ∧
      (∀ (o : ℕ → DlAttempt) (n : ℕ), 1 ≤ n → o 0 = .badNotFound →
        download_file_safe o n = ((false, .notFound), [], 1)) ∧
      (∀ (o : ℕ → DlAttempt) (n : ℕ), 1 ≤ n → o 0 = .badInvalidId →
        download_file_safe o n = ((false, .invalidId), [], 1)) ∧
      (∀ (o : ℕ → DlAttempt) (n : ℕ), (∀ i, o i = .netError) →
        download_file_safe o n =
          ((false, .exhausted), (List.range (n - 1)).map (fun i => 2 ^ i), n)) := by
  refine ⟨?_, ?_, ?_, ?_, ?_⟩
  · intro o n hn h0
    obtain ⟨m, rfl⟩ : ∃ m, n = m + 1 := ⟨n - 1, by omega⟩
    have : m + 1 - (m + 1) = 0 := by omega
    simp [download_file_safe, dlGo, this, h0]
  · intro o n hn h0
    obtain ⟨m, rfl⟩ : ∃ m, n = m + 1 := ⟨n - 1, by omega⟩
    have : m + 1 - (m + 1) = 0 := by omega
    simp [download_file_safe, dlGo, this, h0]
  · intro o n hn h0
    obtain ⟨m, rfl⟩ : ∃ m, n = m + 1 := ⟨n - 1, by omega⟩
    have : m + 1 - (m + 1) = 0 := by omega
    simp [download_file_safe, dlGo, this, h0]
  · intro o n hn h0
    obtain ⟨m, rfl⟩ : ∃ m, n = m + 1 := ⟨n - 1, by omega⟩
    have : m + 1 - (m + 1) = 0 := by omega
    simp [download_file_safe, dlGo, this, h0]
  · intro o n h
    have := dlGo_all_netError o n h n (le_refl n)
    rw [download_file_safe, this, Nat.sub_self, List.range_eq_range']

/-- Witness for C6 amended, at concrete oracles and the default retry
bound of 2. -/
theorem c6_amended_witness :
    download_file_safe (fun _ => DlAttempt.badNotFound) 2 = ((false, .notFound), [], 1) ∧
      download_file_safe (fun _ => DlAttempt.netError) 2 =
        ((false, .exhausted), [1], 2) := by
  constructor
  · exact c6_amended.2.2.1 (fun _ => DlAttempt.badNotFound) 2 (by omega) rfl
  · have h := c6_amended.2.2.2.2 (fun _ => DlAttempt.netError) 2 (fun _ => rfl)
    simpa using h

/-! ## Lemmas about format_srt_time -/

theorem pad_two_digits :
    ∀ n : ℕ, n < 100 → (⟨padDigits 2 (natDecimal n)⟩ : String) = specTwoDigit n := by
  decide

theorem pad_three_digits :
    ∀ n : ℕ, n < 1000 → (⟨padDigits 3 (natDecimal n)⟩ : String) = specThreeDigit n := by
  decide

theorem intPad_nonneg_two (z : ℤ) (h0 : 0 ≤ z) (h1 : z < 100) :
    intPad 2 z = specTwoDigit z.toNat := by
  rw [intPad, if_neg (by omega)]
  rw [show z.natAbs = z.toNat from by omega]
  exact pad_two_digits z.toNat (by omega)

theorem intPad_nonneg_three (z : ℤ) (h0 : 0 ≤ z) (h1 : z < 1000) :
    intPad 3 z = specThreeDigit z.toNat := by
  rw [intPad, if_neg (by omega)]
  rw [show z.natAbs = z.toNat from by omega]
  exact pad_three_digits z.toNat (by omega)

theorem format_srt_time_num (q : ℚ) :
    format_srt_time (.num q) =
      intPad 2 (pyFloorDiv q 3600) ++ ":" ++ intPad 2 (pyFloorDiv (pyMod q 3600) 60) ++ ":" ++
        intPad 2 ⌊pyMod q 60⌋ ++ "," ++ intPad 3 ⌊pyMod (pyMod q 60) 1 * 1000⌋ := rfl

/-- Arithmetically characterises the formatted output for values below 100
hours: the four rendered fields are in range, appear as two/three spec-side
digit groups, and encode exactly the truncation of `q` to whole
milliseconds. -/
theorem format_srt_time_spec (q : ℚ) (hq0 : 0 ≤ q) (hq1 : q < 360000) :
    ∃ h m s ms : ℕ, h < 100 ∧ m < 60 ∧ s < 60 ∧ ms < 1000 ∧
      format_srt_time (.num q) =
        specTwoDigit h ++ ":" ++ specTwoDigit m ++ ":" ++ specTwoDigit s ++ "," ++
          specThreeDigit ms ∧
      ((h * 3600 + m * 60 + s : ℚ) + ms / 1000 ≤ q) ∧
      (q < (h * 3600 + m * 60 + s : ℚ) + ((ms : ℚ) + 1) / 1000) := by
  have h3600 : (0:ℚ) < 3600 := by norm_num
  have h60 : (0:ℚ) < 60 := by norm_num
  have hfmt : format_srt_time (.num q) =
      intPad 2 ⌊q / 3600⌋ ++ ":" ++ intPad 2 ⌊(q - 3600 * (⌊q / 3600⌋ : ℚ)) / 60⌋ ++ ":" ++
        intPad 2 ⌊q - 60 * (⌊q / 60⌋ : ℚ)⌋ ++ "," ++
        intPad 3 ⌊(q - 60 * (⌊q / 60⌋ : ℚ) - (⌊q - 60 * (⌊q / 60⌋ : ℚ)⌋ : ℚ)) * 1000⌋ := by
    simp only [format_srt_time, pyFloorDiv, pyMod, div_one, one_mul]
  set H := ⌊q / 3600⌋ with hHdef
  set r := q - 3600 * (H : ℚ) with hrdef
  set M := ⌊r / 60⌋ with hMdef
  set Q := ⌊q / 60⌋ with hQdef
  set sq := q - 60 * (Q : ℚ) with hsqdef
  set S := ⌊sq⌋ with hSdef
  set MS := ⌊(sq - (S : ℚ)) * 1000⌋ with hMSdef
  -- hours bounds
  have hH0 : 0 ≤ H := by
    rw [hHdef]
    apply Int.le_floor.mpr
    push_cast
    positivity
  have hH1 : H < 100 := by
    rw [hHdef]
    apply Int.floor_lt.mpr
    push_cast
    rw [div_lt_iff₀ h3600]
    linarith
  -- the remainder after removing whole hours
  have hHle : ((H : ℤ) : ℚ) ≤ q / 3600 := by rw [hHdef]; exact Int.floor_le _
  have hHgt : q / 3600 < H + 1 := by rw [hHdef]; exact Int.lt_floor_add_one _
  have hd3600 : (3600:ℚ) * (q / 3600) = q := by ring
  have hr0 : 0 ≤ r := by
    have h1 := mul_le_mul_of_nonneg_left hHle (le_of_lt h3600)
    rw [hd3600] at h1
    rw [hrdef]
    linarith
  have hr1 : r < 3600 := by
    have h1 := mul_lt_mul_of_pos_left hHgt h3600
    rw [hd3600] at h1
    rw [hrdef]
    linarith
  -- minutes bounds
  have hM0 : 0 ≤ M := by
    rw [hMdef]
    apply Int.le_floor.mpr
    push_cast
    positivity
  have hM1 : M < 60 := by
    rw [hMdef]
    apply Int.floor_lt.mpr
    push_cast
    rw [div_lt_iff₀ h60]
    linarith
  -- relation between minutes and the direct floor of q / 60
  have hQM : M = Q - 60 * H := by
    rw [hMdef, hQdef, hrdef]
    have h1 : (q - 3600 * (H : ℚ)) / 60 = q / 60 - ((60 * H : ℤ) : ℚ) := by
      push_cast
      ring
    rw [h1, Int.floor_sub_int]
  -- seconds remainder
  have hd60 : (60:ℚ) * (q / 60) = q := by ring
  have hQle : ((Q : ℤ) : ℚ) ≤ q / 60 := by rw [hQdef]; exact Int.floor_le _
  have hQgt : q / 60 < Q + 1 := by rw [hQdef]; exact Int.lt_floor_add_one _
  have hsq0 : 0 ≤ sq := by
    have h1 := mul_le_mul_of_nonneg_left hQle (le_of_lt h60)
    rw [hd60] at h1
    rw [hsqdef]
    linarith
  have hsq1 : sq < 60 := by
    have h1 := mul_lt_mul_of_pos_left hQgt h60
    rw [hd60] at h1
    rw [hsqdef]
    linarith
  have hS0 : 0 ≤ S := by
    rw [hSdef]
    exact Int.le_floor.mpr (by push_cast; exact hsq0)
  have hS1 : S < 60 := by
    rw [hSdef]
    exact Int.floor_lt.mpr (by push_cast; exact hsq1)
  have hSle : ((S : ℤ) : ℚ) ≤ sq := by rw [hSdef]; exact Int.floor_le _
  have hSgt : sq < S + 1 := by rw [hSdef]; exact Int.lt_floor_add_one _
  -- milliseconds
  have hMS0 : 0 ≤ MS := by
    rw [hMSdef]
    apply Int.le_floor.mpr
    push_cast
    nlinarith
  have hMS1 : MS < 1000 := by
    rw [hMSdef]
    apply Int.floor_lt.mpr
    push_cast
    nlinarith
  have hMSle : ((MS : ℤ) : ℚ) ≤ (sq - (S : ℚ)) * 1000 := by
    rw [hMSdef]; exact Int.floor_le _
  have hMSgt : (sq - (S : ℚ)) * 1000 < MS + 1 := by
    rw [hMSdef]; exact Int.lt_floor_add_one _
  -- cast facts
  have hQMq : (M : ℚ) = (Q : ℚ) - 60 * (H : ℚ) := by
    have := congrArg (fun z : ℤ => (z : ℚ)) hQM
    push_cast at this
    exact this
  have hsq_eq : q = 60 * (Q : ℚ) + sq := by rw [hsqdef]; ring
  refine ⟨H.toNat, M.toNat, S.toNat, MS.toNat, by omega, by omega, by omega, by omega, ?_, ?_, ?_⟩
  · rw [hfmt, intPad_nonneg_two H hH0 hH1, intPad_nonneg_two M hM0 (by omega),
      intPad_nonneg_two S hS0 (by omega), intPad_nonneg_three MS hMS0 hMS1]
  · have hcH : ((H.toNat : ℕ) : ℚ) = (H : ℚ) := by exact_mod_cast Int.toNat_of_nonneg hH0
    have hcM : ((M.toNat : ℕ) : ℚ) = (M : ℚ) := by exact_mod_cast Int.toNat_of_nonneg hM0
    have hcS : ((S.toNat : ℕ) : ℚ) = (S : ℚ) := by exact_mod_cast Int.toNat_of_nonneg hS0
    have hcMS : ((MS.toNat : ℕ) : ℚ) = (MS : ℚ) := by exact_mod_cast Int.toNat_of_nonneg hMS0
    rw [hcH, hcM, hcS, hcMS]
    linarith
  · have hcH : ((H.toNat : ℕ) : ℚ) = (H : ℚ) := by exact_mod_cast Int.toNat_of_nonneg hH0
    have hcM : ((M.toNat : ℕ) : ℚ) = (M : ℚ) := by exact_mod_cast Int.toNat_of_nonneg hM0
    have hcS : ((S.toNat : ℕ) : ℚ) = (S : ℚ) := by exact_mod_cast Int.toNat_of_nonneg hS0
    have hcMS : ((MS.toNat : ℕ) : ℚ) = (MS : ℚ) := by exact_mod_cast Int.toNat_of_nonneg hMS0
    rw [hcH, hcM, hcS, hcMS]
    linarith

/-- C3 counterexample: at 100 hours (360000 seconds, a non-negative numeric
input) the hours field is rendered with three digits, so the output is 13
characters instead of the `HH:MM:SS,mmm` 12-character shape the claim
asserts for every non-negative input. -/
theorem c3_counterexample :
    format_srt_time (.num 360000) = "100:00:00,000" ∧
      (format_srt_time (.num 360000)).length = 13 := by
  have h : format_srt_time (.num 360000) = "100:00:00,000" := by
    rw [format_srt_time_num]
    norm_num [pyFloorDiv, pyMod]
    decide
  exact ⟨h, by rw [h]; rfl⟩

/-- C3 amended: for non-negative inputs below 100 hours the output is
`HH:MM:SS,mmm` with two-digit zero-padded hours, minutes, seconds and
three-digit milliseconds, truncating (not rounding) below millisecond
precision (above 100 hours the hours field takes more digits);
`format_srt_time(0) = "00:00:00,000"`,
`format_srt_time(3661.25) = "01:01:01,250"`, and a malformed input maps to
`"00:00:00,000"`. -/
theorem c3_amended :
    (∀ q : ℚ, 0 ≤ q → q < 360000 →
        ∃ h m s ms : ℕ, h < 100 ∧ m < 60 ∧ s < 60 ∧ ms < 1000 ∧
          format_srt_time (.num q) =
            specTwoDigit h ++ ":" ++ specTwoDigit m ++ ":" ++ specTwoDigit s ++ "," ++
              specThreeDigit ms ∧
          ((h * 3600 + m * 60 + s : ℚ) + ms / 1000 ≤ q) ∧
          (q < (h * 3600 + m * 60 + s : ℚ) + ((ms : ℚ) + 1) / 1000)) ∧
      format_srt_time (.num 0) = "00:00:00,000" ∧
      format_srt_time (.num (3661.25 : ℚ)) = "01:01:01,250" ∧
      format_srt_time .malformed = "00:00:00,000" := by
  refine ⟨format_srt_time_spec, ?_, ?_, rfl⟩
  · rw [format_srt_time_num]
    norm_num [pyFloorDiv, pyMod]
    decide
  · rw [format_srt_time_num]
    norm_num [pyFloorDiv, pyMod]
    decide

/-- Witness for C3 amended at the concrete input 3661.25 seconds. -/
theorem c3_amended_witness :
    (0 : ℚ) ≤ 3661.25 ∧ (3661.25 : ℚ) < 360000 ∧
      ∃ h m s ms : ℕ, h < 100 ∧ m < 60 ∧ s < 60 ∧ ms < 1000 ∧
        format_srt_time (.num (3661.25 : ℚ)) =
          specTwoDigit h ++ ":" ++ specTwoDigit m ++ ":" ++ specTwoDigit s ++ "," ++
            specThreeDigit ms ∧
        ((h * 3600 + m * 60 + s : ℚ) + ms / 1000 ≤ 3661.25) ∧
        ((3661.25 : ℚ) < (h * 3600 + m * 60 + s : ℚ) + ((ms : ℚ) + 1) / 1000) :=
  ⟨by norm_num, by norm_num, c3_amended.1 3661.25 (by norm_num) (by norm_num)⟩
